import Mathlib

/-!
Verification of the fin-trends trend pipeline (`service/api/main.py`).

The pipeline is embedded shallowly over exact rationals:
* `_get_stock_data`'s x-axis derivation (`(df.index - df.index[0]).days`)
  becomes `daysSinceStart` over integer-second timestamps;
* the log-least-squares fit (`np.polyfit(x, y_log, 1)`) becomes `polyfit1`,
  the standard closed form of degree-1 ordinary least squares;
* the area-matching growth line of `get_trend` becomes
  `growthSlope`/`growthTrend`, with `trapz` embedding `np.trapezoid`;
* the chart assembly and the cookie/session handlers become `composeChart`,
  `getTrend`, `getStateFromCookie`, `addStock`.

The real-valued `np.log` has no computable counterpart on `ℚ`, so the
pipeline `getTrend` is parametric in the log function `lg`; every theorem
about it holds for all `lg`.  Machine floats are modelled as exact
rationals, so "within floating-point tolerance" statements become exact
equalities.
-/

namespace FinTrends

/-- Embedding of `np.trapezoid(y, x)`: the composite trapezoidal rule
`Σ (y[i] + y[i+1]) / 2 * (x[i+1] - x[i])` over consecutive points. -/
def trapz : List ℚ → List ℚ → ℚ
  | x0 :: x1 :: xs, y0 :: y1 :: ys =>
      (y0 + y1) / 2 * (x1 - x0) + trapz (x1 :: xs) (y1 :: ys)
  | _, _ => 0

/-- Embedding of `main.py` line 160: the area-matching slope
`m = 2 * (area_actual - y0 * (x1 - x0)) / (x1 - x0) ** 2` with
`x0 = x[0]`, `x1 = x[-1]`, `y0 = y[0]`, `area_actual = np.trapezoid(y, x)`. -/
def growthSlope (x y : List ℚ) : ℚ :=
  let x0 := x.headD 0
  let x1 := x.getLastD 0
  let y0 := y.headD 0
  2 * (trapz x y - y0 * (x1 - x0)) / (x1 - x0) ^ 2

/-- Embedding of `main.py` line 162: `avg_growth = y0 + m * (x - x0)`,
the straight growth line sampled at every observed x. -/
def growthTrend (x y : List ℚ) : List ℚ :=
  let x0 := x.headD 0
  let y0 := y.headD 0
  let m := growthSlope x y
  x.map fun t => y0 + m * (t - x0)

/-- Embedding of `np.polyfit(x, y, 1)` (`main.py` line 143): degree-1
ordinary least squares in closed form, returning `(slope, intercept)`.
`slope = (n·Σxy − Σx·Σy) / (n·Σx² − (Σx)²)`,
`intercept = (Σy − slope·Σx) / n`. -/
def polyfit1 (x y : List ℚ) : ℚ × ℚ :=
  let n : ℚ := x.length
  let sx := x.sum
  let sy := y.sum
  let sxx := (x.map fun t => t * t).sum
  let sxy := (List.zipWith (fun u v => u * v) x y).sum
  let d := n * sxx - sx * sx
  let slope := (n * sxy - sx * sy) / d
  (slope, (sy - slope * sx) / n)

/-- The regression trend in log space: `intercept + slope * x[i]` at every
observed x.  The code's `trend_ls` (`main.py` line 144) is the pointwise
exponential of this list. -/
def trendLsLog (x ylog : List ℚ) : List ℚ :=
  let sb := polyfit1 x ylog
  x.map fun t => sb.2 + sb.1 * t

/-- Embedding of `main.py` line 103,
`x = (df.index - df.index[0]).days.values.astype(float)`: timestamps are
integer seconds, and each offset from the first timestamp is floor-divided
by 86400 (pandas `.days` floors), then cast to the numeric axis. -/
def daysSinceStart (ts : List ℤ) : List ℚ :=
  ts.map fun t => (((t - ts.headD 0) / 86400 : ℤ) : ℚ)

/-- Y-axis scale of the rendered chart (`ax.set_yscale`). -/
inductive AxisScale where
  | linear : AxisScale
  | log2 : AxisScale
deriving DecidableEq

/-- Tick formatter of the rendered chart (`mticker.ScalarFormatter()` shows
actual values, `mticker.NullFormatter()` hides labels). -/
inductive TickFormatter where
  | scalar : TickFormatter
  | null : TickFormatter
deriving DecidableEq

/-- The chart specification assembled by `get_trend` (`main.py` lines
164-184) before rasterisation: the three curves, the y-axis scale and
label, and the two tick formatters. -/
structure ChartSpec where
  priceCurve : List ℚ
  growthCurve : List ℚ
  regressionLogCurve : List ℚ
  yscale : AxisScale
  ylabel : String
  majorFmt : TickFormatter
  minorFmt : TickFormatter
deriving DecidableEq

/-- Embedding of `main.py` lines 164-184: the chart is always three curves;
the scale string `"log"` selects a base-2 logarithmic y-axis, anything
else a linear one; the major tick formatter is unconditionally set to
`ScalarFormatter` (actual values) and the minor one to `NullFormatter`. -/
def composeChart (y growth tlog : List ℚ) (scale : String) : ChartSpec :=
  { priceCurve := y
    growthCurve := growth
    regressionLogCurve := tlog
    yscale := if scale = "log" then AxisScale.log2 else AxisScale.linear
    ylabel := if scale = "log" then "Price (log scale)" else "Price"
    majorFmt := TickFormatter.scalar
    minorFmt := TickFormatter.null }

/-- Outcome of the `/trend/{ticker}` endpoint: either the plain-text
no-data response (`main.py` line 139) or a rendered chart. -/
inductive TrendResponse where
  | noData : TrendResponse
  | image : ChartSpec → TrendResponse
deriving DecidableEq

/-- The HTTP media type of each outcome: `text/plain` for the no-data
response, `image/png` for a rendered chart. -/
def mediaType : TrendResponse → String
  | TrendResponse.noData => "text/plain"
  | TrendResponse.image _ => "image/png"

/-- Embedding of `get_trend` (`main.py` lines 129-192) downstream of the
network fetch.  The fetch result is `none` when the provider returned zero
rows (`data.empty`), otherwise `some (x, y)`.  `lg` abstracts `np.log`,
which has no computable rational counterpart.  The function is total:
the Python body contains no raise and no validation, so every fetched
series flows through the two fits and the composer. -/
def getTrend (lg : ℚ → ℚ) (fetched : Option (List ℚ × List ℚ))
    (scale : String) : TrendResponse :=
  match fetched with
  | none => TrendResponse.noData
  | some (x, y) =>
      let ylog := y.map lg
      TrendResponse.image
        (composeChart y (growthTrend x y) (trendLsLog x ylog) scale)

/-- Session state held in the `stock_state` cookie: the watchlist, the
period, the scale, and (only in the no-cookie default) an interval. -/
structure StockState where
  stocks : List String
  period : String
  scale : String
  interval : Option String
deriving DecidableEq

/-- The fallback state literal of `get_state_from_cookie`
(`main.py` line 203). -/
def defaultCookieState : StockState :=
  { stocks := [], period := "6mo", scale := "linear", interval := some "1d" }

/-- Embedding of `get_state_from_cookie` (`main.py` lines 195-203).  The
request's cookie is modelled post-JSON-decoding: `none` means no cookie,
`some none` an unreadable one (a `json.JSONDecodeError`), `some (some s)`
a readable state.  Both failure branches fall through to the defaults. -/
def getStateFromCookie (cookie : Option (Option StockState)) : StockState :=
  match cookie with
  | some (some s) => s
  | some none => defaultCookieState
  | none => defaultCookieState

/-- The `interval` query-parameter default of `get_trend`
(`main.py` line 133), independent of the cookie state. -/
def defaultInterval : String := "1d"

/-- Model of Python's `str.upper()` for ASCII tickers: uppercase every
character. -/
def upperStr (s : String) : String :=
  String.mk (s.data.map Char.toUpper)

/-- Embedding of `add_stock` (`main.py` lines 206-215): uppercase the
submitted ticker and append it to the watchlist only when absent. -/
def addStock (ticker : String) (s : StockState) : StockState :=
  let t := upperStr ticker
  if t ∈ s.stocks then s else { s with stocks := s.stocks ++ [t] }

/-! ### Helper lemmas -/

/-- The trapezoidal rule is exact on an affine function: over any sample
list it telescopes to the difference of the antiderivative
`G t = p * t + q * t ^ 2 / 2` at the endpoints. -/
lemma trapz_map_affine (p q : ℚ) :
    ∀ (l : List ℚ) (a : ℚ),
      trapz (a :: l) ((a :: l).map fun t => p + q * t) =
        (p * ((a :: l).getLastD 0) + q * ((a :: l).getLastD 0) ^ 2 / 2) -
          (p * a + q * a ^ 2 / 2) := by
  intro l
  induction l with
  | nil => intro a; simp [trapz]
  | cons b l ih =>
      intro a
      have hstep := ih b
      simp only [List.map_cons, trapz, List.getLastD_cons] at hstep ⊢
      rw [hstep]
      ring

/-- A list sum as a sum over its indices. -/
lemma sum_get (x : List ℚ) : x.sum = ∑ i : Fin x.length, x.get i := by
  conv_lhs => rw [← List.ofFn_get x]
  rw [List.sum_ofFn]

/-- A mapped list sum as a sum over the indices of the original list. -/
lemma sum_map_get (x : List ℚ) (g : ℚ → ℚ) :
    (x.map g).sum = ∑ i : Fin x.length, g (x.get i) := by
  conv_lhs => rw [← List.ofFn_get x]
  rw [List.map_ofFn, List.sum_ofFn]
  simp [Function.comp]

/-- Sum of an affine image of a list. -/
lemma sum_map_affine (a b : ℚ) :
    ∀ x : List ℚ, (x.map fun t => a * t + b).sum = a * x.sum + b * x.length
  | [] => by simp
  | t :: x => by
      simp only [List.map_cons, List.sum_cons, sum_map_affine a b x,
        List.length_cons]
      push_cast
      ring

/-- Sum of products of a list with its own affine image. -/
lemma sum_zipWith_affine (a b : ℚ) :
    ∀ x : List ℚ,
      (List.zipWith (fun u v => u * v) x (x.map fun t => a * t + b)).sum =
        a * (x.map fun t => t * t).sum + b * x.sum
  | [] => by simp
  | t :: x => by
      simp only [List.map_cons, List.zipWith_cons_cons, List.sum_cons,
        sum_zipWith_affine a b x]
      ring

/-- Strict Cauchy–Schwarz for a non-constant family: if two values differ,
`(Σ f)² < n · Σ f²`. -/
lemma sq_sum_lt_card_mul_sum_sq {n : ℕ} (f : Fin n → ℚ) (i j : Fin n)
    (hne : f i ≠ f j) :
    (∑ k, f k) * (∑ k, f k) < (n : ℚ) * ∑ k, f k * f k := by
  have hn : (0 : ℚ) < n := by exact_mod_cast i.pos
  set c : ℚ := (∑ k, f k) / n with hcdef
  have hexp : ∀ k, (f k - c) ^ 2 = f k * f k - 2 * c * f k + c * c :=
    fun k => by ring
  have hsum : ∑ k, (f k - c) ^ 2 =
      (∑ k, f k * f k) - 2 * c * (∑ k, f k) + (n : ℚ) * (c * c) := by
    simp_rw [hexp, Finset.sum_add_distrib, Finset.sum_sub_distrib,
      Finset.sum_const, Finset.card_univ, Fintype.card_fin, nsmul_eq_mul,
      Finset.mul_sum]
  have hk : ∃ k, f k - c ≠ 0 := by
    by_contra h
    push_neg at h
    exact hne ((sub_eq_zero.mp (h i)).trans (sub_eq_zero.mp (h j)).symm)
  obtain ⟨k, hk⟩ := hk
  have hpos : 0 < ∑ k, (f k - c) ^ 2 :=
    Finset.sum_pos' (fun l _ => sq_nonneg _)
      ⟨k, Finset.mem_univ k, (sq_nonneg _).lt_of_ne (pow_ne_zero 2 hk).symm⟩
  have key : (n : ℚ) * ∑ k, (f k - c) ^ 2 =
      (n : ℚ) * (∑ k, f k * f k) - (∑ k, f k) * (∑ k, f k) := by
    rw [hsum, hcdef]
    field_simp
    ring
  have := mul_pos hn hpos
  rw [key] at this
  linarith

/-- The least-squares denominator `n·Σx² − (Σx)²` is positive whenever the
list has two distinct entries. -/
lemma den_pos (x : List ℚ) (i j : Fin x.length) (hne : x.get i ≠ x.get j) :
    0 < (x.length : ℚ) * (x.map fun t => t * t).sum - x.sum * x.sum := by
  rw [sum_get x, sum_map_get x fun t => t * t]
  have := sq_sum_lt_card_mul_sum_sq x.get i j hne
  linarith

/-! ### Claim theorems -/

/-- Claim C1: for every series with at least two distinct x values and
`x1 > x0`, the growth trend line (slope
`m = 2 * (area_actual - y0 * (x1 - x0)) / (x1 - x0) ^ 2`, anchored at the
first point) has a trapezoidal integral over `[x0, x1]` equal to the
trapezoidal integral of the actual price series over the same interval. -/
theorem growth_area_match (x y : List ℚ) (hx : x.headD 0 < x.getLastD 0) :
    trapz x (growthTrend x y) = trapz x y := by
  cases x with
  | nil => simp at hx
  | cons a l =>
      have ha : (a :: l).headD 0 = a := rfl
      rw [ha] at hx
      have hne : (a :: l).getLastD 0 - a ≠ 0 := sub_ne_zero.mpr (ne_of_gt hx)
      have hne2 : ((a :: l).getLastD 0 - a) ^ 2 ≠ 0 := pow_ne_zero 2 hne
      have hfun : (fun t => y.headD 0 + growthSlope (a :: l) y * (t - a)) =
          fun t => (y.headD 0 - growthSlope (a :: l) y * a) +
            growthSlope (a :: l) y * t :=
        funext fun t => by ring
      have hmap : growthTrend (a :: l) y =
          (a :: l).map fun t =>
            (y.headD 0 - growthSlope (a :: l) y * a) +
              growthSlope (a :: l) y * t := by
        simp only [growthTrend, List.headD_cons]
        rw [hfun]
      rw [hmap, trapz_map_affine]
      simp only [growthSlope, List.headD_cons]
      set z := (a :: l).getLastD 0 with hzdef
      set A := trapz (a :: l) y with hAdef
      set w := y.headD 0 with hwdef
      field_simp
      ring

/-- Witness for C1 at the concrete series `x = [0,1,2]`, `y = [1,3,2]`. -/
theorem growth_area_match_witness :
    trapz [0, 1, 2] (growthTrend [0, 1, 2] [1, 3, 2]) =
      trapz [0, 1, 2] [1, 3, 2] :=
  growth_area_match [0, 1, 2] [1, 3, 2] (by norm_num)

/-- Claim C2: the regression trend is ordinary least squares on the
logarithm of the prices; whenever the log-prices are an exact affine
function of x (and x has two distinct values), the fit recovers the exact
slope and intercept, the fitted log-curve equals the log-price list, and
hence the exponentiated regression trend equals the price series at every
point. -/
theorem regression_exact_recovery (x ylog : List ℚ) (a b : ℚ)
    (hlin : ylog = x.map fun t => a * t + b)
    (i j : Fin x.length) (hne : x.get i ≠ x.get j) :
    polyfit1 x ylog = (a, b) ∧ trendLsLog x ylog = ylog ∧
      (trendLsLog x ylog).map (fun q => Real.exp (q : ℝ)) =
        ylog.map fun q => Real.exp (q : ℝ) := by
  subst hlin
  have hd := den_pos x i j hne
  have hn : ((x.length : ℚ)) ≠ 0 :=
    Nat.cast_ne_zero.mpr (Nat.pos_iff_ne_zero.mp i.pos)
  have hpair : polyfit1 x (x.map fun t => a * t + b) = (a, b) := by
    simp only [polyfit1, sum_map_affine, sum_zipWith_affine, Prod.mk.injEq]
    set N := ((x.length : ℚ)) with hN
    set SX := x.sum with hSX
    set SXX := (x.map fun t => t * t).sum with hSXX
    have hd2 : N * SXX - SX * SX ≠ 0 := ne_of_gt hd
    have hslope : (N * (a * SXX + b * SX) - SX * (a * SX + b * N)) /
        (N * SXX - SX * SX) = a := by
      rw [show N * (a * SXX + b * SX) - SX * (a * SX + b * N) =
          a * (N * SXX - SX * SX) from by ring,
        mul_div_assoc, div_self hd2, mul_one]
    refine ⟨hslope, ?_⟩
    rw [hslope, show a * SX + b * N - a * SX = b * N from by ring,
      mul_div_assoc, div_self hn, mul_one]
  have htrend : trendLsLog x (x.map fun t => a * t + b) =
      x.map fun t => a * t + b := by
    simp only [trendLsLog, hpair]
    have hfun : (fun t : ℚ => (a, b).2 + (a, b).1 * t) =
        fun t => a * t + b := funext fun t => by ring
    rw [hfun]
  exact ⟨hpair, htrend, by rw [htrend]⟩

/-- Witness for C2 at `x = [0,1]`, `log y = [3,5]` (slope 2, intercept 3). -/
theorem regression_exact_recovery_witness :
    polyfit1 [0, 1] [3, 5] = (2, 3) ∧ trendLsLog [0, 1] [3, 5] = [3, 5] ∧
      (trendLsLog [0, 1] [3, 5]).map (fun q => Real.exp (q : ℝ)) =
        ([3, 5] : List ℚ).map fun q => Real.exp (q : ℝ) :=
  regression_exact_recovery [0, 1] [3, 5] 2 3 (by norm_num)
    ⟨0, by norm_num⟩ ⟨1, by norm_num⟩ (by norm_num)

/-- Claim C3, evaluated at the failing input: a single-point series is
not rejected.  `get_trend` contains no validation and no raise, so the
embedded pipeline is total: at `x = [0]`, `y = [100]` it runs both fits
(whose divisors `(x1 - x0) ^ 2` and `n·Σx² − (Σx)²` are zero) to
completion and returns an ordinary image response — a silently degenerate
result, where the spec demands a fatal precondition failure. -/
theorem single_point_silent_result (lg : ℚ → ℚ) :
    getTrend lg (some ([0], [100])) "linear" =
      TrendResponse.image
        { priceCurve := [100], growthCurve := [100],
          regressionLogCurve := [lg 100], yscale := AxisScale.linear,
          ylabel := "Price", majorFmt := TickFormatter.scalar,
          minorFmt := TickFormatter.null } ∧
      growthSlope [0] [100] = 0 := by
  constructor
  · simp [getTrend, composeChart, growthTrend, growthSlope, trapz,
      trendLsLog, polyfit1]
  · simp [growthSlope, trapz]

/-- Claim C4: a zero-row fetch yields the NoData outcome as a plain-text
(non-image) response, and every non-empty fetch yields an image, so the
NoData path is the only non-image outcome of the pipeline. -/
theorem nodata_only_failure_path :
    (∀ (lg : ℚ → ℚ) (scale : String),
        getTrend lg none scale = TrendResponse.noData ∧
          mediaType (getTrend lg none scale) = "text/plain") ∧
      ∀ (lg : ℚ → ℚ) (x y : List ℚ) (scale : String),
        mediaType (getTrend lg (some (x, y)) scale) = "image/png" :=
  ⟨fun _ _ => ⟨rfl, rfl⟩, fun _ _ _ _ => rfl⟩

/-- Claim C5: for a series with at least two points and strictly positive
prices, both fitted trend curves have exactly the length of the series,
so `len(x) = len(y) = len(each trend curve)` holds at the composer. -/
theorem fit_curve_lengths (lg : ℚ → ℚ) (x y : List ℚ)
    (_h2 : 2 ≤ x.length) (hlen : y.length = x.length)
    (_hpos : ∀ q ∈ y, 0 < q) :
    (trendLsLog x (y.map lg)).length = x.length ∧
      (growthTrend x y).length = x.length ∧
      (trendLsLog x (y.map lg)).length = y.length ∧
      (growthTrend x y).length = y.length := by
  simp [trendLsLog, growthTrend, hlen]

/-- Witness for C5 at `x = [0,1]`, `y = [1,2]`. -/
theorem fit_curve_lengths_witness :
    (trendLsLog [0, 1] (([1, 2] : List ℚ).map id)).length =
        ([0, 1] : List ℚ).length ∧
      (growthTrend [0, 1] [1, 2]).length = ([0, 1] : List ℚ).length ∧
      (trendLsLog [0, 1] (([1, 2] : List ℚ).map id)).length =
        ([1, 2] : List ℚ).length ∧
      (growthTrend [0, 1] [1, 2]).length = ([1, 2] : List ℚ).length :=
  fit_curve_lengths id [0, 1] [1, 2] (by norm_num) (by norm_num) (by decide)

/-- Claim C6: the derived x-axis consists of whole-day offsets from the
first timestamp, so for every non-empty chronologically ordered fetch it
starts at 0.0 and is monotonically non-decreasing. -/
theorem xaxis_day_offsets (ts : List ℤ) (hne : ts ≠ [])
    (hsort : List.Chain' (· ≤ ·) ts) :
    (daysSinceStart ts).headD 0 = 0 ∧
      List.Chain' (· ≤ ·) (daysSinceStart ts) := by
  constructor
  · cases ts with
    | nil => exact absurd rfl hne
    | cons t rest => simp [daysSinceStart]
  · unfold daysSinceStart
    refine (List.chain'_map _).2 (hsort.imp ?_)
    intro a b hab
    have h : (a - ts.headD 0) / 86400 ≤ (b - ts.headD 0) / 86400 :=
      Int.ediv_le_ediv (by norm_num) (by omega)
    exact_mod_cast h

/-- Witness for C6 at timestamps `[0, 90000, 200000]` (seconds), whose
day offsets are `[0, 1, 2]`. -/
theorem xaxis_day_offsets_witness :
    (daysSinceStart [0, 90000, 200000]).headD 0 = 0 ∧
      List.Chain' (· ≤ ·) (daysSinceStart [0, 90000, 200000]) :=
  xaxis_day_offsets [0, 90000, 200000] (by decide)
    (by norm_num [List.chain'_cons])

/-- Claim C7: the scale input `"log"` renders a base-2 logarithmic y-axis
whose major tick labels use the scalar (actual-value) formatter, and the
scale input `"linear"` renders a linear y-axis. -/
theorem scale_axis_mapping (y g t : List ℚ) :
    (composeChart y g t "log").yscale = AxisScale.log2 ∧
      (composeChart y g t "log").majorFmt = TickFormatter.scalar ∧
      (composeChart y g t "log").minorFmt = TickFormatter.null ∧
      (composeChart y g t "linear").yscale = AxisScale.linear ∧
      (composeChart y g t "linear").majorFmt = TickFormatter.scalar :=
  ⟨rfl, rfl, rfl, rfl, rfl⟩

/-- Claim C8: with no cookie, or an unreadable one, the state supplied to
the pipeline is `{stocks: [], period: "6mo", scale: "linear"}` (with the
fallback's own interval entry), and the endpoint's interval query
parameter defaults separately to `"1d"`. -/
theorem default_state_no_cookie :
    getStateFromCookie none =
      { stocks := [], period := "6mo", scale := "linear",
        interval := some "1d" } ∧
      getStateFromCookie (some none) = getStateFromCookie none ∧
      defaultInterval = "1d" :=
  ⟨rfl, rfl, rfl⟩

/-- Claim C9: the chart endpoint never rejects a scale token — every
scale string other than exactly `"log"` (e.g. `"LOG"`, `"log2"`) falls
through to a linear y-axis. -/
theorem unknown_scale_linear (y g t : List ℚ) (scale : String)
    (h : scale ≠ "log") :
    (composeChart y g t scale).yscale = AxisScale.linear := by
  simp [composeChart, h]

/-- Witness for C9 at the unsupported token `"LOG"`. -/
theorem unknown_scale_linear_witness :
    (composeChart [] [] [] "LOG").yscale = AxisScale.linear :=
  unknown_scale_linear [] [] [] "LOG" (by decide)

/-- Claim C10: `add_stock` uppercases the submitted ticker and appends it
only when absent, so adding a ticker whose uppercase form is already in
the watchlist leaves the state unchanged, adding preserves freedom from
duplicates, and adding twice equals adding once. -/
theorem add_stock_idempotent_nodup (ticker : String) (s : StockState) :
    (upperStr ticker ∈ s.stocks → addStock ticker s = s) ∧
      (s.stocks.Nodup → (addStock ticker s).stocks.Nodup) ∧
      addStock ticker (addStock ticker s) = addStock ticker s := by
  refine ⟨fun h => by simp [addStock, h], fun hnd => ?_, ?_⟩
  · by_cases h : upperStr ticker ∈ s.stocks
    · simp [addStock, h, hnd]
    · simp [addStock, h, List.nodup_append, hnd]
  · by_cases h : upperStr ticker ∈ s.stocks
    · simp [addStock, h]
    · have h1 : addStock ticker s =
          { s with stocks := s.stocks ++ [upperStr ticker] } := by
        simp [addStock, h]
      rw [h1]
      simp [addStock, List.mem_append]

/-- Witness for C10: adding `"msft"` to a watchlist already holding
`"MSFT"` is a no-op, and adding `"aapl"` keeps the watchlist
duplicate-free. -/
theorem add_stock_idempotent_nodup_witness :
    addStock "msft"
        { stocks := ["MSFT"], period := "1y", scale := "log",
          interval := none } =
      { stocks := ["MSFT"], period := "1y", scale := "log",
        interval := none } ∧
      (addStock "aapl"
        { stocks := ["MSFT"], period := "1y", scale := "log",
          interval := none }).stocks.Nodup :=
  ⟨(add_stock_idempotent_nodup "msft"
      { stocks := ["MSFT"], period := "1y", scale := "log",
        interval := none }).1 (by decide),
    (add_stock_idempotent_nodup "aapl"
      { stocks := ["MSFT"], period := "1y", scale := "log",
        interval := none }).2.1 (by decide)⟩

end FinTrends
